import Mathlib

/-!
A shallow embedding of the core of the biolink-model toolkit
(`bmt/toolkit.py` and `bmt/utils.py`): the name resolver, the hierarchy
queries, the secondary-slot filter, the specificity ranking and the
mapping-index lookups, together with proofs about them.

Strings are manipulated through their character lists so that every
definition is executable by the kernel.  The external collaborators
(the linkml `SchemaView` "schema provider", the `stringcase` library)
are not part of the repository; where a definition stands in for one of
them its doc comment says so and follows the specification text.
-/

namespace Bmt

/-- Characters of the literal `"biolink"`. -/
def biolinkChars : List Char := ['b', 'i', 'o', 'l', 'i', 'n', 'k']

/-- `camel_pattern` boundary of `utils.from_camel`: a separator is inserted
before every position (other than the start) where an upper-case letter is
immediately followed by a lower-case letter.  This handles every position
after the first character; `fromCamelChars` below keeps the first character. -/
def camInsert : List Char → List Char
  | [] => []
  | [c] => [c]
  | c1 :: c2 :: rest =>
    if c1.isUpper && c2.isLower then ' ' :: c1 :: camInsert (c2 :: rest)
    else c1 :: camInsert (c2 :: rest)

/-- `lowercase_pattern` step of `utils.from_camel`: every maximal run of
alphabetic characters that contains at least one lower-case letter is
lower-cased (acronym runs such as "URL" are left alone).  `run` is the
alphabetic run collected so far, in reverse order. -/
def lowerRunsGo (run : List Char) : List Char → List Char
  | [] => if run.any Char.isLower then (run.reverse).map Char.toLower else run.reverse
  | c :: rest =>
    if c.isAlpha then lowerRunsGo (c :: run) rest
    else (if run.any Char.isLower then (run.reverse).map Char.toLower else run.reverse)
      ++ c :: lowerRunsGo [] rest

/-- `utils.from_camel` with separator `" "`: insert the camel boundaries,
then lower-case the runs that contain a lower-case letter. -/
def fromCamelChars (cs : List Char) : List Char :=
  lowerRunsGo [] (match cs with
    | [] => []
    | c :: rest => c :: camInsert rest)

/-- `utils.camelcase_to_sentencecase`. -/
def camelToSentence (s : String) : String :=
  String.mk (fromCamelChars s.toList)

/-- Modelled from the spec: `utils.snakecase_to_sentencecase` delegates to the
external `stringcase` library (`stringcase.sentencecase(s).lower()`), which the
spec describes as "snake_case → space-separated words": underscores become
spaces and the result is lower-cased. -/
def snakeToSentence (s : String) : String :=
  String.mk ((s.toList.map (fun c => if c = '_' then ' ' else c)).map Char.toLower)

/-- `utils.sentencecase_to_camelcase`: upper-case an alphabetic character at
the start of the string or after a space, consuming the space. -/
def sentToCamelGo : List Char → Bool → List Char
  | [], _ => []
  | [c], atStart =>
    if atStart && c.isAlpha then [c.toUpper] else if c = ' ' then [' '] else [c]
  | c :: d :: rest2, atStart =>
    if atStart && c.isAlpha then c.toUpper :: sentToCamelGo (d :: rest2) false
    else if c = ' ' then
      (if d.isAlpha then d.toUpper :: sentToCamelGo rest2 false
       else ' ' :: sentToCamelGo (d :: rest2) false)
    else c :: sentToCamelGo (d :: rest2) false

/-- `utils.sentencecase_to_camelcase`. -/
def sentToCamel (s : String) : String :=
  String.mk (sentToCamelGo s.toList true)

/-- Modelled from the spec: `utils.sentencecase_to_snakecase` delegates to the
external `stringcase` library (`stringcase.snakecase(s).lower()`); per the
spec's naming interface, spaces become underscores and the result is
lower-cased. -/
def sentToSnake (s : String) : String :=
  String.mk ((s.toList.map (fun c => if c = ' ' then '_' else c)).map Char.toLower)

/-- Python `name.replace("_", " ")` for the single-character pattern. -/
def underscoreToSpace (s : String) : String :=
  String.mk (s.toList.map (fun c => if c = '_' then ' ' else c))

/-- Python `parsed_name.replace("biolink:", "")`: remove every (left-to-right,
non-overlapping) occurrence of the 8-character pattern. -/
def stripBiolinkChars : List Char → List Char
  | 'b' :: 'i' :: 'o' :: 'l' :: 'i' :: 'n' :: 'k' :: ':' :: rest => stripBiolinkChars rest
  | c :: rest => c :: stripBiolinkChars rest
  | [] => []

/-- Number of underscore characters in a string (drives the bounded recursion
of the name resolver). -/
def countUnderscore (s : String) : Nat :=
  s.toList.count '_'

/-- Python `"_" in name`. -/
def hasUnderscore (s : String) : Bool :=
  s.toList.contains '_'

/-- `utils.parse_name`: if the name starts with `"biolink:"` and has at least
one further character (the `biolink:(.+)` regular expression), the remainder is
snake- or camel-converted according to whether it contains an underscore; a
name that starts with `"biolink"` but does not match the regular expression is
returned unchanged; otherwise underscore names are snake-converted, names
containing a space are returned as-is, and everything else is
camel-converted. -/
def parseNameChars (cs : List Char) : List Char :=
  match cs with
  | 'b' :: 'i' :: 'o' :: 'l' :: 'i' :: 'n' :: 'k' :: ':' :: c :: rest =>
    if (c :: rest).contains '_' then (snakeToSentence (String.mk (c :: rest))).toList
    else fromCamelChars (c :: rest)
  | _ =>
    if biolinkChars.isPrefixOf cs then cs
    else if cs.contains '_' then (snakeToSentence (String.mk cs)).toList
    else if cs.contains ' ' then cs
    else fromCamelChars cs

/-- `utils.parse_name` on strings. -/
def parseName (s : String) : String :=
  String.mk (parseNameChars s.toList)

/-- The kind of a schema element: class, slot, type, enum or subset
(`ClassDefinition` / `SlotDefinition` / `TypeDefinition` / `EnumDefinition` /
`SubsetDefinition` in the linkml metamodel).  Classes, slots and enums are
`Definition`s (they carry an `is_a` pointer the toolkit will read). -/
inductive EKind where
  | cls
  | slot
  | typ
  | enm
  | sub
deriving DecidableEq, Repr

/-- One schema element as the toolkit reads it off the schema view: canonical
name, kind, single `is_a` parent, mixin parents, alias list, the slot-only
derived-slot marker `alias` (empty string meaning absent/falsy), subset
memberships, and the slot-only `domain` / `domain_of` attributes. -/
structure SchemaElement where
  name : String
  kind : EKind
  is_a : Option String := none
  mixins : List String := []
  aliases : List String := []
  «alias» : String := ""
  in_subset : List String := []
  domain : Option String := none
  domain_of : List String := []
deriving DecidableEq, Repr

/-- The immutable snapshot a `Toolkit` instance queries.  `elements` is the
schema's element table in declaration order; the five `bucket*` functions are
the view's per-specificity reverse mapping multimap, `mappingIndex` its
single `(kind, element)` mapping index entry per identifier (both built by the
external `SchemaView`, modelled from the spec's Mapping Index section), and
`pmap` is the predicate-mapping payload fetched at construction time, which
the mapping queries never consult. -/
structure SchemaState where
  elements : List SchemaElement
  bucketExact : String → List String := fun _ => []
  bucketClose : String → List String := fun _ => []
  bucketRelated : String → List String := fun _ => []
  bucketNarrow : String → List String := fun _ => []
  bucketBroad : String → List String := fun _ => []
  mappingIndex : String → Option (String × String) := fun _ => none
  pmap : List (String × String) := []

/-- The view's direct, case-sensitive name table (`SchemaView.get_element`
as the spec's Schema Provider interface describes it): the first element
with the given canonical name. -/
def lookupElement (st : SchemaState) (n : String) : Option SchemaElement :=
  st.elements.find? (fun e => e.name = n)

theorem lookupElement_name {st : SchemaState} {n : String} {e : SchemaElement}
    (h : lookupElement st n = some e) : e.name = n := by
  have := List.find?_some h
  simpa using this

/-- Duplicate removal that keeps the first occurrence (the order-determinism
convention this embedding fixes for Python's `set`). -/
def dedupAux (seen : List String) : List String → List String
  | [] => []
  | x :: xs => if x ∈ seen then dedupAux seen xs else x :: dedupAux (x :: seen) xs

def dedupFirst (l : List String) : List String :=
  dedupAux [] l

theorem mem_dedupAux {x : String} {l seen : List String}
    (h : x ∈ dedupAux seen l) : x ∈ l ∧ x ∉ seen := by
  induction l generalizing seen with
  | nil => simp [dedupAux] at h
  | cons y ys ih =>
    simp only [dedupAux] at h
    by_cases hy : y ∈ seen
    · rw [if_pos hy] at h
      obtain ⟨h1, h2⟩ := ih h
      exact ⟨List.mem_cons_of_mem _ h1, h2⟩
    · rw [if_neg hy] at h
      rcases List.mem_cons.mp h with h | h
      · exact ⟨by simp [h], by simpa [h] using hy⟩
      · obtain ⟨h1, h2⟩ := ih h
        have h3 : x ∉ seen := fun hc => h2 (List.mem_cons_of_mem _ hc)
        have h4 : x ≠ y := fun hc => h2 (by simp [hc])
        exact ⟨List.mem_cons_of_mem _ h1, h3⟩

theorem mem_dedupFirst {x : String} {l : List String}
    (h : x ∈ dedupFirst l) : x ∈ l :=
  (mem_dedupAux h).1

/-- The primary `is_a` chain from an element to its root, nearest parent
first, including the element itself; names that do not resolve contribute
nothing.  Modelled from the spec: this is the Hierarchy Index's primary
ancestor walk that the external `SchemaView.class_ancestors` /
`slot_ancestors` perform. -/
def isaChain (st : SchemaState) : Nat → String → List String
  | 0, _ => []
  | fuel + 1, n =>
    match lookupElement st n with
    | none => []
    | some e =>
      match e.is_a with
      | none => [n]
      | some p => n :: isaChain st fuel p

/-- Modelled from the spec: the mixin-contributed ancestors — for every member
of the primary chain, each of its mixin targets contributes that mixin's own
`is_a` ancestor chain, appended after the primary chain. -/
def mixinAncestors (st : SchemaState) (fuel : Nat) (chain : List String) : List String :=
  chain.flatMap (fun a =>
    match lookupElement st a with
    | some e => e.mixins.flatMap (fun m => isaChain st fuel m)
    | none => [])

/-- Modelled from the spec: the full reflexive ancestor list — primary `is_a`
chain (self first, nearest-to-farthest) followed by the mixin-contributed
ancestors when `mixin` is on, deduplicated keeping first occurrences. -/
def ancestorsAll (st : SchemaState) (mixin : Bool) (n : String) : List String :=
  let fuel := st.elements.length + 1
  let primary := isaChain st fuel n
  dedupFirst (primary ++ (if mixin then mixinAncestors st fuel primary else []))

/-- Modelled from the spec: `SchemaView.class_ancestors` / `slot_ancestors`
with its `mixins` and `reflexive` flags; a non-reflexive query drops the query
element from the head of the list only. -/
def viewAncestors (st : SchemaState) (mixin reflexive : Bool) (n : String) : List String :=
  let l := ancestorsAll st mixin n
  if reflexive then l else l.drop 1

/-- Modelled from the spec: direct children — the elements whose `is_a` is the
given name, followed (when `mixin` is on) by the elements that list the given
name among their mixins. -/
def childrenOf (st : SchemaState) (mixin : Bool) (n : String) : List String :=
  ((st.elements.filter (fun e => e.is_a = some n)).map (fun e => e.name))
    ++ (if mixin then
          (st.elements.filter (fun e => n ∈ e.mixins)).map (fun e => e.name)
        else [])

/-- Modelled from the spec: depth-first descendant enumeration — emit the
element, then recurse into each child. -/
def descTree (st : SchemaState) (mixin : Bool) : Nat → String → List String
  | 0, n => [n]
  | fuel + 1, n => n :: (childrenOf st mixin n).flatMap (fun c => descTree st mixin fuel c)

/-- Modelled from the spec: `SchemaView.class_descendants` /
`slot_descendants` with its `mixins` and `reflexive` flags. -/
def viewDescendants (st : SchemaState) (mixin reflexive : Bool) (n : String) : List String :=
  let l := dedupFirst (descTree st mixin (st.elements.length + 1) n)
  if reflexive then l else l.drop 1

/-- `utils.format_element` on a bare element name (the `ElementName` branch of
the isinstance chain): prefix `"biolink:"` and camel-case the name. -/
def fmtName (x : String) : String :=
  "biolink:" ++ sentToCamel x

/-- `utils.format_element` on a resolved element: slots are snake-cased,
every other kind is camel-cased, under the `"biolink:"` prefix.  (The
`metatype:` branch for builtin linkml types and the source's `AttributeError`
on an unresolvable name are outside every claim and are collapsed to the
name-based format.) -/
def formatDef (st : SchemaState) (x : String) : String :=
  match lookupElement st x with
  | some el =>
    if el.kind = EKind.slot then "biolink:" ++ sentToSnake el.name
    else "biolink:" ++ sentToCamel el.name
  | none => fmtName x

/-- `Toolkit._format_all_elements`: format each name via the view when the
`formatted` flag is set, otherwise return the list unchanged. -/
def formatAll (st : SchemaState) (formatted : Bool) (elements : List String) : List String :=
  if formatted then elements.map (fun x => formatDef st x) else elements

/-- `Toolkit._filter_secondary`: keep a name unless it resolves (directly, via
the view) to a slot whose `alias` attribute is truthy (non-empty). -/
def _filter_secondary (st : SchemaState) (elements : List String) : List String :=
  elements.filter (fun e =>
    match lookupElement st e with
    | some eo => if eo.kind = EKind.slot then eo.«alias» = "" else true
    | none => true)

/-- The alias-table scan of `Toolkit.get_element`: for each element of the
view's alias table (in element order), if the original or the parsed name is
among its aliases, resolve the element name; the last matching entry wins
(the Python loop does not break). -/
def aliasScan (st : SchemaState) (name parsed : String) : Option SchemaElement :=
  st.elements.foldl
    (fun acc e =>
      if name ∈ e.aliases ∨ parsed ∈ e.aliases then lookupElement st e.name else acc)
    none

/-- Python `s.lower()` (ASCII). -/
def strLower (s : String) : String :=
  String.mk (s.toList.map Char.toLower)

/-- `el.name.lower().replace(' ', '').replace('_', '')` of the case-insensitive
scan of `Toolkit.get_element`. -/
def normName (s : String) : String :=
  String.mk ((s.toList.map Char.toLower).filter (fun c => ¬ (c = ' ' ∨ c = '_')))

/-- The last-resort case-insensitive scan of `Toolkit.get_element` over all
elements; again the last matching element wins. -/
def ciScan (st : SchemaState) (name parsed : String) : Option SchemaElement :=
  st.elements.foldl
    (fun acc el =>
      if strLower el.name = strLower name ∨ strLower el.name = strLower parsed
          ∨ normName el.name = normName name ∨ normName el.name = normName parsed
      then some el else acc)
    none

/-- The parsed name as it stands when the fallback stages of
`Toolkit.get_element` run: after the direct lookup fails, a parsed name still
carrying a `"biolink:"` prefix has the prefix removed and its underscores
turned into spaces. -/
def parsedRetry (name : String) : String :=
  let p := parseName name
  if ('b' :: 'i' :: 'o' :: 'l' :: 'i' :: 'n' :: 'k' :: ':' :: []).isPrefixOf p.toList
  then underscoreToSpace (String.mk (stripBiolinkChars p.toList))
  else p

/-- `Toolkit.get_element` with explicit fuel for its single recursive retry
(`get_element(name.replace("_", " "))`), which strictly reduces the number of
underscores: direct lookup of the parsed name, then the alias scan, then the
underscore-to-space retry, then the case-insensitive scan, first success wins
within a stage but stages run in this fixed order.  (The source's display-only
backfill of `class_uri` / `slot_uri` on the returned element is not modelled.) -/
def getElementFuel (st : SchemaState) : Nat → String → Option SchemaElement
  | 0, _ => none
  | fuel + 1, name =>
    let e1 := lookupElement st (parseName name)
    let e2 :=
      match e1 with
      | some e => some e
      | none => aliasScan st name (parsedRetry name)
    let e3 :=
      match e2 with
      | some e => some e
      | none =>
        if hasUnderscore name then getElementFuel st fuel (underscoreToSpace name)
        else none
    match e3 with
    | some e => some e
    | none => ciScan st name (parsedRetry name)

/-- `Toolkit.get_element`. -/
def getElement (st : SchemaState) (name : String) : Option SchemaElement :=
  getElementFuel st (countUnderscore name + 1) name

/-- `Toolkit.get_ancestors(name, reflexive, formatted, mixin)`: resolve the
name; classes get their view ancestors unfiltered, slots get theirs passed
through the secondary-slot filter, and any other outcome (including a name
that fails to resolve) yields the empty list — no error is raised. -/
def get_ancestors (st : SchemaState) (name : String)
    (reflexive formatted mixin : Bool) : List String :=
  match getElement st name with
  | some e =>
    if e.kind = EKind.cls then
      formatAll st formatted (viewAncestors st mixin reflexive e.name)
    else if e.kind = EKind.slot then
      formatAll st formatted (_filter_secondary st (viewAncestors st mixin reflexive e.name))
    else formatAll st formatted []
  | none => formatAll st formatted []

/-- `Toolkit.get_descendants(name, reflexive, formatted, mixin)`: like
`get_ancestors` but over descendants, except that a name that fails to
resolve raises `ValueError("not a valid biolink component")`. -/
def get_descendants (st : SchemaState) (name : String)
    (reflexive formatted mixin : Bool) : Except String (List String) :=
  match getElement st name with
  | some e =>
    if e.kind = EKind.cls then
      Except.ok (formatAll st formatted (viewDescendants st mixin reflexive e.name))
    else if e.kind = EKind.slot then
      Except.ok (formatAll st formatted
        (_filter_secondary st (viewDescendants st mixin reflexive e.name)))
    else Except.ok (formatAll st formatted [])
  | none => Except.error "not a valid biolink component"

/-- `Toolkit.get_all_slots`: every slot of the raw schema slot table, passed
through the secondary-slot filter, then formatted. -/
def get_all_slots (st : SchemaState) (formatted : Bool) : List String :=
  formatAll st formatted
    (_filter_secondary st ((st.elements.filter (fun e => e.kind = EKind.slot)).map
      (fun e => e.name)))

/-- `Toolkit.get_all_slots_with_class_domain` at its default
`check_ancestors=False`: resolve the class (an unresolvable name raises, since
the source dereferences `element.name`), then collect the slots whose `domain`
is the class or that list the class in `domain_of`. -/
def get_all_slots_with_class_domain (st : SchemaState) (class_name : String)
    (formatted : Bool) : Except String (List String) :=
  match getElement st class_name with
  | none => Except.error "AttributeError"
  | some el =>
    Except.ok (formatAll st formatted
      ((st.elements.filter (fun v =>
        v.kind = EKind.slot ∧ (v.domain = some el.name ∨ el.name ∈ v.domain_of))).map
        (fun v => v.name)))

/-- `Toolkit.get_all_node_properties`: slots with class domain `"entity"`
plus the descendants of `"node property"`, secondary-filtered, formatted. -/
def get_all_node_properties (st : SchemaState) (formatted : Bool) :
    Except String (List String) :=
  match get_all_slots_with_class_domain st "entity" false with
  | Except.error msg => Except.error msg
  | Except.ok e1 =>
    match get_descendants st "node property" true false true with
    | Except.error msg => Except.error msg
    | Except.ok e2 =>
      Except.ok (formatAll st formatted (_filter_secondary st (e1 ++ e2)))

/-- `Toolkit.get_all_edge_properties`: slots with class domain `"entity"`
plus the descendants of `"association slot"`, secondary-filtered, formatted. -/
def get_all_edge_properties (st : SchemaState) (formatted : Bool) :
    Except String (List String) :=
  match get_all_slots_with_class_domain st "entity" false with
  | Except.error msg => Except.error msg
  | Except.ok e1 =>
    match get_descendants st "association slot" true false true with
    | Except.error msg => Except.error msg
    | Except.ok e2 =>
      Except.ok (formatAll st formatted (_filter_secondary st (e1 ++ e2)))

/-- `Toolkit.get_parent`: resolve the name; the `is_a` target (only
`Definition` kinds — classes, slots, enums — carry one), formatted on request
according to the kind-typed name. -/
def get_parent (st : SchemaState) (name : String) (formatted : Bool) : Option String :=
  match getElement st name with
  | none => none
  | some e =>
    let p := if e.kind = EKind.cls ∨ e.kind = EKind.slot ∨ e.kind = EKind.enm
             then e.is_a else none
    match p with
    | none => none
    | some pn =>
      if formatted then
        some (if e.kind = EKind.slot then "biolink:" ++ sentToSnake pn
              else "biolink:" ++ sentToCamel pn)
      else some pn

/-- The `while` loop of `Toolkit.get_element_depth`, with fuel (the source
loops forever on a malformed cyclic schema, which construction rejects). -/
def depthAux (st : SchemaState) : Nat → String → Nat
  | 0, _ => 0
  | fuel + 1, n =>
    match get_parent st n false with
    | none => 0
    | some p => depthAux st fuel p + 1

/-- `Toolkit.get_element_depth` (at its default `formatted=False`, the only
way the specificity ranking invokes it). -/
def get_element_depth (st : SchemaState) (name : String) : Nat :=
  depthAux st (st.elements.length + 1) name

/-- Stable insertion of `a` into `l`: `a` goes in front of the first element
`b` with `le a b` true. -/
def ordIns (le : String → String → Bool) (a : String) : List String → List String
  | [] => [a]
  | b :: l => if le a b then a :: b :: l else b :: ordIns le a l

/-- Stable insertion sort; Python's `sorted` is the (unique) stable sort, and
this models `sorted(element_list, key=..., reverse=...)`. -/
def insSort (le : String → String → Bool) : List String → List String
  | [] => []
  | a :: l => ordIns le a (insSort le l)

/-- The comparison `sorted(..., key=self.get_element_depth, reverse=most_specific)`
sorts by: descending depth when `most_specific`, ascending otherwise. -/
def rankLe (st : SchemaState) (most_specific : Bool) (a b : String) : Bool :=
  if most_specific then decide (get_element_depth st b ≤ get_element_depth st a)
  else decide (get_element_depth st a ≤ get_element_depth st b)

/-- `Toolkit.rank_element_by_specificity`: stable sort by hierarchy depth,
deepest first when `most_specific` is set (Python's `reverse=True` keeps
equal-depth elements in input order). -/
def rank_element_by_specificity (st : SchemaState) (element_list : List String)
    (most_specific : Bool) : List String :=
  insSort (rankLe st most_specific) element_list

/-- `Toolkit.get_most_specific_element`: filter the candidates through the
membership predicate when one is supplied; a non-empty filtered list yields
the head of the specificity ranking, an empty one yields the supplied root
element; the result is formatted on request (re-resolving the name first, as
the source does — an unresolvable name, which would raise there, yields
`none`). -/
def get_most_specific_element (st : SchemaState) (element_list : List String)
    (formatted : Bool) (member_of : Option (String → Bool))
    (root_element : Option String) : Option String :=
  let l2 :=
    match member_of with
    | some p => element_list.filter p
    | none => element_list
  let element :=
    if l2.isEmpty then root_element
    else (rank_element_by_specificity st l2 true).head?
  if formatted then
    element.bind (fun e => (getElement st e).map (fun el =>
      if el.kind = EKind.slot then "biolink:" ++ sentToSnake el.name
      else "biolink:" ++ sentToCamel el.name))
  else element

/-- `Toolkit.in_subset`: a direct view lookup of the parsed name — none of
`get_element`'s fallbacks — then `subset in element.in_subset`; an
unresolvable name dereferences `None.in_subset` and raises. -/
def in_subset (st : SchemaState) (name subset : String) : Except String Bool :=
  match lookupElement st (parseName name) with
  | none => Except.error "AttributeError"
  | some element => Except.ok (element.in_subset.contains subset)

/-- Modelled from the spec: the external `SchemaView.get_element_by_mapping`,
the "general mappings being the union/default bucket" of the Mapping Index —
the names recorded for the identifier across every specificity bucket. -/
def viewMapped (st : SchemaState) (identifier : String) : List String :=
  st.bucketExact identifier ++ st.bucketClose identifier ++ st.bucketRelated identifier
    ++ st.bucketNarrow identifier ++ st.bucketBroad identifier

set_option linter.unusedVariables false in
/-- The common body of `Toolkit.get_element_by_exact_mapping` and its
close/related/narrow/broad siblings: fetch the view's pooled mapping list; if
it is empty return `[]`; otherwise the loop returns on its first iteration —
the singleton of the CURIE-formatted first candidate when the view's mapping
index records exactly `(kind, that candidate)` for the identifier, `[]`
otherwise.  A missing mapping-index entry raises (`None[0]`, a `TypeError`).
The `formatted` parameter is accepted and ignored, as in the source. -/
def probeByKind (st : SchemaState) (kind identifier : String) (formatted : Bool) :
    Except String (List String) :=
  match viewMapped st identifier with
  | [] => Except.ok []
  | e :: _ =>
    match st.mappingIndex identifier with
    | none => Except.error "TypeError"
    | some ki =>
      Except.ok (if ki.1 = kind ∧ ki.2 = e then [fmtName e] else [])

/-- `Toolkit.get_element_by_exact_mapping`. -/
def get_element_by_exact_mapping (st : SchemaState) (identifier : String)
    (formatted : Bool) : Except String (List String) :=
  probeByKind st "exact" identifier formatted

/-- `Toolkit.get_element_by_close_mapping`. -/
def get_element_by_close_mapping (st : SchemaState) (identifier : String)
    (formatted : Bool) : Except String (List String) :=
  probeByKind st "close" identifier formatted

/-- `Toolkit.get_element_by_related_mapping`. -/
def get_element_by_related_mapping (st : SchemaState) (identifier : String)
    (formatted : Bool) : Except String (List String) :=
  probeByKind st "related" identifier formatted

/-- `Toolkit.get_element_by_narrow_mapping`. -/
def get_element_by_narrow_mapping (st : SchemaState) (identifier : String)
    (formatted : Bool) : Except String (List String) :=
  probeByKind st "narrow" identifier formatted

/-- `Toolkit.get_element_by_broad_mapping`. -/
def get_element_by_broad_mapping (st : SchemaState) (identifier : String)
    (formatted : Bool) : Except String (List String) :=
  probeByKind st "broad" identifier formatted

/-- `Toolkit.get_all_elements_by_mapping`: the view's pooled mapping list,
formatted on request. -/
def get_all_elements_by_mapping (st : SchemaState) (identifier : String)
    (formatted : Bool) : List String :=
  formatAll st formatted (viewMapped st identifier)

/-- `Toolkit._get_element_by_mapping`: start from the view's pooled ("general")
mapping set; while the set is empty, pour in the exact, close, related,
narrow and finally broad per-kind lookups, each guarded by the set still
being empty (so buckets are never merged); return whatever set results.
Python's `set(...)` conversions are modelled as first-occurrence
deduplication. -/
def _get_element_by_mapping (st : SchemaState) (identifier : String) :
    Except String (List String) :=
  let m1 := dedupFirst (viewMapped st identifier)
  if m1.isEmpty then
    match get_element_by_exact_mapping st identifier false with
    | Except.error msg => Except.error msg
    | Except.ok l2 =>
      let m2 := dedupFirst l2
      if m2.isEmpty then
        match get_element_by_close_mapping st identifier false with
        | Except.error msg => Except.error msg
        | Except.ok l3 =>
          let m3 := dedupFirst l3
          if m3.isEmpty then
            match get_element_by_related_mapping st identifier false with
            | Except.error msg => Except.error msg
            | Except.ok l4 =>
              let m4 := dedupFirst l4
              if m4.isEmpty then
                match get_element_by_narrow_mapping st identifier false with
                | Except.error msg => Except.error msg
                | Except.ok l5 =>
                  let m5 := dedupFirst l5
                  if m5.isEmpty then
                    match get_element_by_broad_mapping st identifier false with
                    | Except.error msg => Except.error msg
                    | Except.ok l6 => Except.ok (dedupFirst l6)
                  else Except.ok m5
              else Except.ok m4
          else Except.ok m3
      else Except.ok m2
  else Except.ok m1

/-- The restricted ancestor chain of one mapping candidate inside
`Toolkit.get_element_by_mapping`:
`[x for x in self.get_ancestors(m, mixin)[::-1] if x in mappings]`.
Note the source passes the `mixin` flag positionally into `get_ancestors`'
`reflexive` parameter, leaving `mixin=True`. -/
def chainOf (st : SchemaState) (mixin : Bool) (mappings : List String)
    (m : String) : List String :=
  ((get_ancestors st m mixin false true).reverse).filter
    (fun x => mappings.contains x)

/-- Python `set.intersection` with a list, as the membership filter the
source's `reduce` folds over. -/
def pyIntersect (s l : List String) : List String :=
  s.filter (fun x => l.contains x)

/-- `Toolkit.get_element_by_mapping(identifier, most_specific, formatted,
mixin)`: fetch the candidate set (first-available buckets when
`most_specific`, the pooled view list otherwise); an empty candidate set
falls through to `None`; otherwise build each candidate's restricted ancestor
chain, drop the empty chains (`filter(None, ancestors)`), intersect the
survivors (`reduce` seeded with the first survivor — an `IndexError` when
every chain is empty), and return the first member of the first surviving
chain that lies in the intersection, formatted on request; no such member
falls through to `None`. -/
def get_element_by_mapping (st : SchemaState) (identifier : String)
    (most_specific formatted mixin : Bool) : Except String (Option String) :=
  match
    (if most_specific then _get_element_by_mapping st identifier
     else Except.ok (get_all_elements_by_mapping st identifier false)) with
  | Except.error msg => Except.error msg
  | Except.ok mappings =>
    if mappings.isEmpty then Except.ok none
    else
      let chains := mappings.map (fun m => chainOf st mixin mappings m)
      match chains.filter (fun c => ¬ c.isEmpty) with
      | [] => Except.error "IndexError"
      | c0 :: cr =>
        let common := cr.foldl pyIntersect c0
        match c0.find? (fun a => common.contains a) with
        | some a =>
          Except.ok (some (if formatted then formatDef st a else a))
        | none => Except.ok none

/-- Equality of `Except` results is decidable (the witnesses evaluate the
fallible operations with `decide`). -/
instance {e a : Type} [DecidableEq e] [DecidableEq a] : DecidableEq (Except e a) :=
  fun x y =>
    match x, y with
    | Except.error u, Except.error v =>
      if h : u = v then Decidable.isTrue (by rw [h])
      else Decidable.isFalse (fun hc => h (by cases hc; rfl))
    | Except.error _, Except.ok _ => Decidable.isFalse (fun hc => Except.noConfusion hc)
    | Except.ok _, Except.error _ => Decidable.isFalse (fun hc => Except.noConfusion hc)
    | Except.ok u, Except.ok v =>
      if h : u = v then Decidable.isTrue (by rw [h])
      else Decidable.isFalse (fun hc => h (by cases hc; rfl))

/-- Demo element: the root class. -/
def namedThingE : SchemaElement :=
  { name := "named thing", kind := EKind.cls }

/-- Demo element: a class under `named thing`, carrying an alias. -/
def geneE : SchemaElement :=
  { name := "gene", kind := EKind.cls, is_a := some "named thing",
    aliases := ["sequence feature"] }

/-- Demo element: the root slot. -/
def relatedToE : SchemaElement :=
  { name := "related to", kind := EKind.slot, in_subset := ["translator_minimal"] }

/-- Demo element: a slot under `related to`. -/
def causesE : SchemaElement :=
  { name := "causes", kind := EKind.slot, is_a := some "related to" }

/-- Demo element: a secondary (derived) slot — non-empty `alias` marker. -/
def secSlotE : SchemaElement :=
  { name := "sec slot", kind := EKind.slot, is_a := some "related to",
    «alias» := "subject" }

/-- Demo element: a type. -/
def typeE : SchemaElement :=
  { name := "t", kind := EKind.typ }

/-- A small concrete schema the witnesses and counterexamples evaluate:
two classes, two proper slots, one secondary slot, one type; identifier
`"X:1"` maps to both classes, `"T:1"` to the type, `"Y:1"` to `gene` with a
consistent mapping-index entry. -/
def demoState : SchemaState :=
  { elements := [namedThingE, geneE, relatedToE, causesE, secSlotE, typeE],
    bucketExact := fun i => if i = "X:1" then ["named thing", "gene"]
                            else if i = "T:1" then ["t"] else [],
    bucketClose := fun i => if i = "Y:1" then ["gene"] else [],
    mappingIndex := fun i => if i = "Y:1" then some ("close", "gene") else none }

/-- `demoState` with a different predicate-map payload (everything else
identical). -/
def demoStateP : SchemaState :=
  { demoState with pmap := [("k", "v")] }

theorem dedupFirst_cons (n : String) (l : List String) :
    dedupFirst (n :: l) = n :: dedupAux [n] l := by
  simp [dedupFirst, dedupAux]

/-- Resolving a canonical name whose parse is itself and whose direct lookup
succeeds stops at the first stage of `get_element`. -/
theorem getElement_direct {st : SchemaState} {n : String} {e : SchemaElement}
    (h : lookupElement st n = some e) (hp : parseName n = n) :
    getElement st n = some e := by
  simp [getElement, getElementFuel, hp, h]

/-- The reflexive ancestor list of a resolvable name starts with the name and
never repeats it. -/
theorem ancestorsAll_cons {st : SchemaState} {n : String} {e : SchemaElement}
    (mixin : Bool) (h : lookupElement st n = some e) :
    ∃ rest, ancestorsAll st mixin n = n :: rest ∧ n ∉ rest := by
  have hchain : ∃ t, isaChain st (st.elements.length + 1) n = n :: t := by
    cases hi : e.is_a with
    | none => exact ⟨[], by simp [isaChain, h, hi]⟩
    | some p => exact ⟨isaChain st st.elements.length p, by simp [isaChain, h, hi]⟩
  obtain ⟨t, ht⟩ := hchain
  refine ⟨dedupAux [n] (t ++ (if mixin then
    mixinAncestors st (st.elements.length + 1) (n :: t) else [])), ?_, ?_⟩
  · simp only [ancestorsAll, ht, List.cons_append, dedupFirst_cons]
  · intro hc
    have := (mem_dedupAux hc).2
    simp at this

/-- A name resolving to a secondary slot never survives the secondary-slot
filter. -/
theorem not_mem_filter_secondary {st : SchemaState} {s : String}
    {el : SchemaElement} (h : lookupElement st s = some el)
    (hk : el.kind = EKind.slot) (ha : el.«alias» ≠ "") (lst : List String) :
    s ∉ _filter_secondary st lst := by
  intro hmem
  have hpred := (List.mem_filter.mp hmem).2
  simp only [_filter_secondary] at hpred
  simp [h, hk] at hpred
  exact ha hpred

/-- A name resolving to a class always survives the secondary-slot filter. -/
theorem mem_filter_secondary_of_cls {st : SchemaState} {c : String}
    {ce : SchemaElement} (h : lookupElement st c = some ce)
    (hk : ce.kind = EKind.cls) {lst : List String} (hmem : c ∈ lst) :
    c ∈ _filter_secondary st lst := by
  refine List.mem_filter.mpr ⟨hmem, ?_⟩
  simp [h, hk]

theorem countUnderscore_underscoreToSpace (s : String) :
    countUnderscore (underscoreToSpace s) = 0 := by
  rw [countUnderscore, underscoreToSpace]
  rw [List.count_eq_zero]
  intro hc
  obtain ⟨a, _, hae⟩ := List.mem_map.mp hc
  by_cases ha : a = '_' <;> simp [ha] at hae

theorem hasUnderscore_underscoreToSpace (s : String) :
    hasUnderscore (underscoreToSpace s) = false := by
  rw [hasUnderscore, underscoreToSpace]
  rw [Bool.eq_false_iff]
  intro hcontains
  have hc := List.elem_iff.mp hcontains
  obtain ⟨a, _, hae⟩ := List.mem_map.mp hc
  by_cases ha : a = '_' <;> simp [ha] at hae

/-- The fuel of `getElementFuel` is irrelevant (beyond being positive) on a
name without underscores: the recursive retry is never taken. -/
theorem getElementFuel_no_underscore (st : SchemaState) (s : String)
    (h : hasUnderscore s = false) (f g : Nat) :
    getElementFuel st (f + 1) s = getElementFuel st (g + 1) s := by
  simp [getElementFuel, h]

theorem find?_congr {p q : String → Bool} : ∀ {l : List String},
    (∀ x ∈ l, p x = q x) → l.find? p = l.find? q := by
  intro l
  induction l with
  | nil => intro _; rfl
  | cons a l ih =>
    intro h
    have ha := h a (by simp)
    simp only [List.find?]
    rw [ha]
    cases hq : q a with
    | true => rfl
    | false => exact ih (fun x hx => h x (by simp [hx]))

theorem mem_foldl_pyIntersect (a : String) : ∀ (cr : List (List String)) (c0 : List String),
    a ∈ cr.foldl pyIntersect c0 ↔ a ∈ c0 ∧ ∀ ch ∈ cr, a ∈ ch := by
  intro cr
  induction cr with
  | nil => simp
  | cons ch cr ih =>
    intro c0
    rw [List.foldl_cons, ih]
    simp only [pyIntersect, List.mem_filter, List.mem_cons]
    constructor
    · rintro ⟨⟨h1, h2⟩, h3⟩
      refine ⟨h1, fun l hl => ?_⟩
      rcases hl with hl | hl
      · exact hl ▸ List.elem_iff.mp h2
      · exact h3 l hl
    · rintro ⟨h1, h2⟩
      exact ⟨⟨h1, List.elem_iff.mpr (h2 ch (Or.inl rfl))⟩, fun l hl => h2 l (Or.inr hl)⟩

/-- C10: `in_subset` performs only the direct view lookup of the parsed name —
none of `get_element`'s fallback strategies — and raises (attribute access on
a null element) when that lookup fails, instead of returning `False`; when it
succeeds it returns the membership test against the element's `in_subset`
list. -/
theorem c10_in_subset_direct_lookup_only :
    ∀ (st : SchemaState) (name subset : String),
      (lookupElement st (parseName name) = none →
        in_subset st name subset = Except.error "AttributeError") ∧
      (∀ el : SchemaElement, lookupElement st (parseName name) = some el →
        in_subset st name subset = Except.ok (el.in_subset.contains subset)) := by
  intro st name subset
  constructor
  · intro h
    simp [in_subset, h]
  · intro el h
    simp [in_subset, h]

/-- C10 witness: in `demoState` the alias `"sequence feature"` resolves
through `get_element`'s alias fallback, yet `in_subset` raises on it because
its direct lookup fails; a canonical slot name succeeds. -/
theorem c10_witness :
    (getElement demoState "sequence feature" = some geneE ∧
      in_subset demoState "sequence feature" "translator_minimal" =
        Except.error "AttributeError") ∧
    in_subset demoState "related to" "translator_minimal" = Except.ok true :=
  ⟨⟨by decide,
    (c10_in_subset_direct_lookup_only demoState "sequence feature"
      "translator_minimal").1 (by decide)⟩,
   (c10_in_subset_direct_lookup_only demoState "related to"
      "translator_minimal").2 relatedToE (by decide)⟩

/-- C4: name resolution never raises — when the direct lookup of the parsed
name, the alias-table scan, the underscore-to-space retry and the
case-insensitive scan all fail, `get_element` returns the `none` sentinel.
(The Lean embedding is a total function, so no exception is possible; this
theorem pins the all-strategies-fail case to `none`.) -/
theorem c4_get_element_not_found_is_none :
    ∀ (st : SchemaState) (name : String),
      lookupElement st (parseName name) = none →
      aliasScan st name (parsedRetry name) = none →
      (hasUnderscore name = true → getElement st (underscoreToSpace name) = none) →
      ciScan st name (parsedRetry name) = none →
      getElement st name = none := by
  intro st name h1 h2 h3 h4
  rw [getElement]
  rw [getElementFuel]
  rw [h1]
  simp only [h2]
  cases hu : hasUnderscore name with
  | false => simp [hu, h4]
  | true =>
    have h3' := h3 hu
    rw [getElement] at h3'
    rw [countUnderscore_underscoreToSpace] at h3'
    have hpos : 0 < countUnderscore name := by
      rw [countUnderscore]
      rw [List.count_pos_iff]
      exact List.elem_iff.mp (by simpa [hasUnderscore] using hu)
    obtain ⟨k, hk⟩ := Nat.exists_eq_add_of_lt hpos
    rw [hk, Nat.zero_add]
    rw [getElementFuel_no_underscore st (underscoreToSpace name)
      (hasUnderscore_underscoreToSpace name) k 0] at *
    simp [hu, h3', h4]

/-- C4 witness: the name `"zzz"` misses every stage in `demoState` and
resolution returns `none` without raising. -/
theorem c4_witness : getElement demoState "zzz" = none :=
  c4_get_element_not_found_is_none demoState "zzz" (by decide) (by decide)
    (by decide) (by decide)

/-- C3 counterexample: on an unresolvable name, `get_descendants` raises
`ValueError` as the claim says, but `get_ancestors` does NOT raise — it
returns the empty list — refuting the claim's "likewise requesting its
ancestors raises an error". -/
theorem c3_counterexample :
    getElement demoState "not a thing" = none ∧
    get_descendants demoState "not a thing" true false true =
      Except.error "not a valid biolink component" ∧
    get_ancestors demoState "not a thing" true false true = [] := by
  refine ⟨by decide, by decide, by decide⟩

/-- C3 (amended): for every name that fails to resolve, `get_descendants`
raises `ValueError("not a valid biolink component")` while `get_ancestors`
returns the empty list without error; and a resolvable class element with no
children yields an empty non-reflexive descendant list without error. -/
theorem c3_amended :
    (∀ (st : SchemaState) (name : String) (r f mx : Bool),
      getElement st name = none →
      get_descendants st name r f mx = Except.error "not a valid biolink component" ∧
      get_ancestors st name r f mx = []) ∧
    (∀ (st : SchemaState) (name : String) (e : SchemaElement),
      getElement st name = some e → e.kind = EKind.cls →
      childrenOf st true e.name = [] →
      get_descendants st name false false true = Except.ok []) := by
  constructor
  · intro st name r f mx h
    constructor
    · simp [get_descendants, h]
    · cases f <;> simp [get_ancestors, h, formatAll]
  · intro st name e h hk hch
    rw [get_descendants, h]
    simp only [hk]
    have hdt : descTree st true (st.elements.length + 1) e.name = [e.name] := by
      simp [descTree, hch]
    simp [viewDescendants, hdt, dedupFirst, dedupAux, formatAll, hch]

/-- C3 witness: `demoState` — unresolvable name raises for descendants and
yields `[]` for ancestors; the childless class `"gene"` yields `ok []`. -/
theorem c3_witness :
    (get_descendants demoState "qqq" true true true =
        Except.error "not a valid biolink component" ∧
      get_ancestors demoState "qqq" true true true = []) ∧
    get_descendants demoState "gene" false false true = Except.ok [] :=
  ⟨c3_amended.1 demoState "qqq" true true true (by decide),
   c3_amended.2 demoState "gene" geneE (by decide) (by decide) (by decide)⟩

/-- C5 counterexample: the reflexivity toggle fails on schema elements that
are not classes or proper slots — the type element `"t"` is in the schema yet
`get_ancestors("t", reflexive=true)` is `[]` (so `"t"` is not a member), and
the secondary slot `"sec slot"` is filtered out of its own ancestor list. -/
theorem c5_counterexample :
    (lookupElement demoState "t").isSome = true ∧
    get_ancestors demoState "t" true false true = [] ∧
    (lookupElement demoState "sec slot").isSome = true ∧
    ("sec slot" ∈ get_ancestors demoState "sec slot" true false true) = False := by
  refine ⟨by decide, by decide, by decide, by decide⟩

/-- C5 (amended): the reflexivity toggle holds for every canonically-named
class element and every canonically-named proper (non-secondary) slot
element: the element is in its own reflexive ancestor list and absent from
its non-reflexive one; elements of any other kind always get `[]` from
`get_ancestors` (so the reflexive half fails for them), and that is the only
exception together with secondary slots. -/
theorem c5_amended :
    ∀ (st : SchemaState) (n : String) (e : SchemaElement),
      lookupElement st n = some e → parseName n = n →
      ((e.kind = EKind.cls →
        n ∈ get_ancestors st n true false true ∧
          n ∉ get_ancestors st n false false true) ∧
       (e.kind = EKind.slot → e.«alias» = "" →
        n ∈ get_ancestors st n true false true ∧
          n ∉ get_ancestors st n false false true) ∧
       ((e.kind = EKind.typ ∨ e.kind = EKind.enm ∨ e.kind = EKind.sub) →
        ∀ (r f m : Bool), get_ancestors st n r f m = [])) := by
  intro st n e h hp
  have hge : getElement st n = some e := getElement_direct h hp
  have hname : e.name = n := lookupElement_name h
  obtain ⟨restT, hT, hTn⟩ := ancestorsAll_cons true h
  refine ⟨?_, ?_, ?_⟩
  · intro hk
    simp only [get_ancestors, hge, hk, reduceIte, hname]
    constructor
    · simp only [formatAll, Bool.false_eq_true, reduceIte, viewAncestors, if_true]
      rw [hT]
      exact List.mem_cons_self n restT
    · simp only [formatAll, Bool.false_eq_true, reduceIte, viewAncestors, if_false]
      rw [hT]
      simpa using hTn
  · intro hk ha
    simp only [get_ancestors, hge, hk, reduceIte, hname]
    constructor
    · simp only [formatAll, Bool.false_eq_true, reduceIte, viewAncestors, if_true]
      rw [hT]
      exact List.mem_filter.mpr ⟨List.mem_cons_self n restT, by simp [h, hk, ha]⟩
    · simp only [formatAll, Bool.false_eq_true, reduceIte, viewAncestors, if_false]
      rw [hT]
      intro hc
      have h1 := (List.mem_filter.mp hc).1
      simp only [List.drop_succ_cons, List.drop_zero] at h1
      exact hTn h1
  · intro hk r f m
    rcases hk with hk | hk | hk <;>
      (cases f <;> simp [get_ancestors, hge, hk, formatAll])

/-- C5 witness: the class `"gene"` and the proper slot `"causes"` in
`demoState` satisfy both halves of the reflexivity toggle. -/
theorem c5_witness :
    ("gene" ∈ get_ancestors demoState "gene" true false true ∧
      "gene" ∉ get_ancestors demoState "gene" false false true) ∧
    ("causes" ∈ get_ancestors demoState "causes" true false true ∧
      "causes" ∉ get_ancestors demoState "causes" false false true) :=
  ⟨(c5_amended demoState "gene" geneE (by decide) (by decide)).1 (by decide),
   (c5_amended demoState "causes" causesE (by decide) (by decide)).2.1
     (by decide) (by decide)⟩

/-- C6: no name resolving to a slot whose `alias` marker (the derived-slot
marker, distinct from `aliases`) is non-empty ever appears in the output of
the secondary-slot filter — hence not in `get_all_slots`,
`get_all_node_properties`, `get_all_edge_properties`, nor in the
ancestor/descendant lists of slot elements — while a name resolving to a
class always passes the filter. -/
theorem c6_secondary_slot_exclusion :
    ∀ (st : SchemaState) (s : String) (el : SchemaElement),
      lookupElement st s = some el → el.kind = EKind.slot → el.«alias» ≠ "" →
      (∀ lst, s ∉ _filter_secondary st lst) ∧
      s ∉ get_all_slots st false ∧
      (∀ l, get_all_node_properties st false = Except.ok l → s ∉ l) ∧
      (∀ l, get_all_edge_properties st false = Except.ok l → s ∉ l) ∧
      (∀ (q : String) (qe : SchemaElement) (r mx : Bool),
        getElement st q = some qe → qe.kind = EKind.slot →
        s ∉ get_ancestors st q r false mx) ∧
      (∀ (q : String) (qe : SchemaElement) (r mx : Bool) (l : List String),
        getElement st q = some qe → qe.kind = EKind.slot →
        get_descendants st q r false mx = Except.ok l → s ∉ l) ∧
      (∀ (c : String) (ce : SchemaElement) (lst : List String),
        lookupElement st c = some ce → ce.kind = EKind.cls → c ∈ lst →
        c ∈ _filter_secondary st lst) := by
  intro st s el h hk ha
  have hfilter := fun lst => not_mem_filter_secondary h hk ha lst
  refine ⟨hfilter, ?_, ?_, ?_, ?_, ?_, ?_⟩
  · simpa [get_all_slots, formatAll] using hfilter _
  · intro l hl
    rw [get_all_node_properties] at hl
    rcases hd : get_all_slots_with_class_domain st "entity" false with msg | e1 <;> rw [hd] at hl
    · exact absurd hl (by simp)
    rcases hd2 : get_descendants st "node property" true false true with msg | e2 <;>
      rw [hd2] at hl
    · exact absurd hl (by simp)
    have : l = formatAll st false (_filter_secondary st (e1 ++ e2)) := by
      cases hl
      rfl
    rw [this]
    simpa [formatAll] using hfilter _
  · intro l hl
    rw [get_all_edge_properties] at hl
    rcases hd : get_all_slots_with_class_domain st "entity" false with msg | e1 <;> rw [hd] at hl
    · exact absurd hl (by simp)
    rcases hd2 : get_descendants st "association slot" true false true with msg | e2 <;>
      rw [hd2] at hl
    · exact absurd hl (by simp)
    have : l = formatAll st false (_filter_secondary st (e1 ++ e2)) := by
      cases hl
      rfl
    rw [this]
    simpa [formatAll] using hfilter _
  · intro q qe r mx hq hqk
    simp only [get_ancestors, hq, hqk, reduceIte, formatAll, Bool.false_eq_true]
    exact hfilter _
  · intro q qe r mx l hq hqk hd
    simp only [get_descendants, hq, hqk, reduceIte, formatAll, Bool.false_eq_true] at hd
    have : l = _filter_secondary st (viewDescendants st mx r qe.name) := by
      cases hd
      rfl
    rw [this]
    exact hfilter _
  · intro c ce lst hc hck hmem
    exact mem_filter_secondary_of_cls hc hck hmem

/-- C6 witness: in `demoState` the secondary slot `"sec slot"` is excluded
from `get_all_slots` and from the descendant list of the slot root
`"related to"`, while the class `"named thing"` passes the filter. -/
theorem c6_witness :
    "sec slot" ∉ get_all_slots demoState false ∧
    (∀ l, get_descendants demoState "related to" true false true = Except.ok l →
      "sec slot" ∉ l) ∧
    "named thing" ∈ _filter_secondary demoState ["named thing", "sec slot"] :=
  ⟨(c6_secondary_slot_exclusion demoState "sec slot" secSlotE (by decide) (by decide)
      (by decide)).2.1,
   fun l hl =>
     (c6_secondary_slot_exclusion demoState "sec slot" secSlotE (by decide) (by decide)
       (by decide)).2.2.2.2.2.1 "related to" relatedToE true true l (by decide)
       (by decide) hl,
   (c6_secondary_slot_exclusion demoState "sec slot" secSlotE (by decide) (by decide)
     (by decide)).2.2.2.2.2.2 "named thing" namedThingE
     ["named thing", "sec slot"] (by decide) (by decide) (by decide)⟩

/-- The head of the descending stable sort splits its input into a strictly
shallower prefix, the returned element, and a no-deeper suffix: the returned
element is the first element of maximal depth. -/
theorem insSort_head_spec (st : SchemaState) : ∀ (l : List String), l ≠ [] →
    ∃ la m lb, l = la ++ m :: lb ∧
      (insSort (rankLe st true) l).head? = some m ∧
      (∀ x ∈ la, get_element_depth st x < get_element_depth st m) ∧
      (∀ x ∈ lb, get_element_depth st x ≤ get_element_depth st m) := by
  intro l
  induction l with
  | nil => intro h; exact absurd rfl h
  | cons a l ih =>
    intro _
    by_cases hl : l = []
    · subst hl
      exact ⟨[], a, [], by simp, by simp [insSort, ordIns], by simp, by simp⟩
    · obtain ⟨la, m, lb, hdec, hhead, hla, hlb⟩ := ih hl
      obtain ⟨t, ht⟩ : ∃ t, insSort (rankLe st true) l = m :: t := by
        cases hs : insSort (rankLe st true) l with
        | nil => rw [hs] at hhead; exact absurd hhead (by simp)
        | cons y t =>
          rw [hs] at hhead
          simp only [List.head?_cons, Option.some.injEq] at hhead
          exact ⟨t, by rw [hhead]⟩
      by_cases hcmp : get_element_depth st m ≤ get_element_depth st a
      · refine ⟨[], a, l, by simp, ?_, by simp, ?_⟩
        · simp [insSort, ht, ordIns, rankLe, hcmp]
        · intro x hx
          rw [hdec] at hx
          rcases List.mem_append.mp hx with hx | hx
          · exact le_trans (le_of_lt (hla x hx)) hcmp
          · rcases List.mem_cons.mp hx with hx | hx
            · exact hx ▸ hcmp
            · exact le_trans (hlb x hx) hcmp
      · refine ⟨a :: la, m, lb, by rw [hdec]; simp, ?_, ?_, hlb⟩
        · simp [insSort, ht, ordIns, rankLe, hcmp]
        · intro x hx
          rcases List.mem_cons.mp hx with hx | hx
          · subst hx; exact not_le.mp hcmp
          · exact hla x hx

/-- C7: `get_most_specific_element` first filters the candidates through the
membership predicate; a non-empty filtered list yields the element of maximal
depth, ties broken in favour of the earliest occurrence (everything before
the returned element in the filtered input is strictly shallower, everything
after is no deeper); an empty filtered list yields the supplied root
element. -/
theorem c7_most_specific_element :
    ∀ (st : SchemaState) (lst : List String) (p : String → Bool)
      (root : Option String),
      (lst.filter p = [] → get_most_specific_element st lst false (some p) root = root) ∧
      (lst.filter p ≠ [] →
        ∃ la m lb, lst.filter p = la ++ m :: lb ∧
          get_most_specific_element st lst false (some p) root = some m ∧
          (∀ x ∈ la, get_element_depth st x < get_element_depth st m) ∧
          (∀ x ∈ lb, get_element_depth st x ≤ get_element_depth st m)) := by
  intro st lst p root
  constructor
  · intro h
    simp [get_most_specific_element, h]
  · intro h
    obtain ⟨la, m, lb, hdec, hhead, hla, hlb⟩ := insSort_head_spec st (lst.filter p) h
    refine ⟨la, m, lb, hdec, ?_, hla, hlb⟩
    have hne : (lst.filter p).isEmpty = false := by
      cases hf : lst.filter p with
      | nil => exact absurd hf h
      | cons y ys => rfl
    simp only [get_most_specific_element, rank_element_by_specificity, hne,
      Bool.false_eq_true, reduceIte]
    exact hhead

/-- C7 witness: in `demoState`, with the always-true predicate, the tie
between the depth-1 elements `"gene"` and `"causes"` goes to the earlier
`"gene"`, and with an all-rejecting predicate the root element is returned. -/
theorem c7_witness :
    (["gene", "causes"].filter (fun _ => true) = [] → False) ∧
    (∃ la m lb, ["gene", "causes"].filter (fun _ => true) = la ++ m :: lb ∧
      get_most_specific_element demoState ["gene", "causes"] false
        (some (fun _ => true)) (some "named thing") = some m ∧
      (∀ x ∈ la, get_element_depth demoState x < get_element_depth demoState m) ∧
      (∀ x ∈ lb, get_element_depth demoState x ≤ get_element_depth demoState m)) ∧
    get_most_specific_element demoState ["gene"] false (some (fun _ => false))
      (some "named thing") = some "named thing" :=
  ⟨fun hc => by simp at hc,
   (c7_most_specific_element demoState ["gene", "causes"] (fun _ => true)
     (some "named thing")).2 (by decide),
   (c7_most_specific_element demoState ["gene"] (fun _ => false)
     (some "named thing")).1 (by decide)⟩

/-- C9: each per-kind mapping lookup (exact/close/related/narrow/broad, all
instances of `probeByKind`) returns, given a mapping index entry for every
pooled identifier, an `ok` list of length at most one: it consults only the
single `(kind, element)` pair the view's mapping index stores for the
identifier and decides on the first pooled candidate alone; any name it
returns is the CURIE-formatted first candidate, and the result is identical
whether or not the `formatted` flag is passed. -/
theorem c9_per_kind_singleton :
    ∀ (st : SchemaState) (identifier : String) (fm : Bool) (kind : String),
      (viewMapped st identifier ≠ [] → (st.mappingIndex identifier).isSome = true) →
      (get_element_by_exact_mapping st identifier fm = probeByKind st "exact" identifier fm ∧
       get_element_by_close_mapping st identifier fm = probeByKind st "close" identifier fm ∧
       get_element_by_related_mapping st identifier fm =
         probeByKind st "related" identifier fm ∧
       get_element_by_narrow_mapping st identifier fm =
         probeByKind st "narrow" identifier fm ∧
       get_element_by_broad_mapping st identifier fm = probeByKind st "broad" identifier fm) ∧
      ∃ l, probeByKind st kind identifier fm = Except.ok l ∧ l.length ≤ 1 ∧
        probeByKind st kind identifier true = probeByKind st kind identifier false ∧
        (∀ x ∈ l, ∃ e es, viewMapped st identifier = e :: es ∧ x = fmtName e) := by
  intro st identifier fm kind h
  refine ⟨⟨rfl, rfl, rfl, rfl, rfl⟩, ?_⟩
  cases hv : viewMapped st identifier with
  | nil => exact ⟨[], by simp [probeByKind, hv], by simp, by simp [probeByKind, hv], by simp⟩
  | cons e es =>
    have hs : (st.mappingIndex identifier).isSome = true := h (by simp [hv])
    obtain ⟨ki, hki⟩ := Option.isSome_iff_exists.mp hs
    refine ⟨if ki.1 = kind ∧ ki.2 = e then [fmtName e] else [], ?_, ?_, ?_, ?_⟩
    · simp [probeByKind, hv, hki]
    · by_cases hc : ki.1 = kind ∧ ki.2 = e <;> simp [hc]
    · simp [probeByKind, hv, hki]
    · intro x hx
      by_cases hc : ki.1 = kind ∧ ki.2 = e
      · rw [if_pos hc] at hx
        simp only [List.mem_singleton] at hx
        exact ⟨e, es, rfl, hx⟩
      · rw [if_neg hc] at hx
        exact absurd hx (by simp)

/-- C9 witness: the identifier `"Y:1"` in `demoState` pools to `["gene"]`
with index entry `("close", "gene")`: the close lookup yields the
CURIE-formatted singleton regardless of the flag, and the exact lookup
yields the empty list. -/
theorem c9_witness :
    (∃ l, probeByKind demoState "close" "Y:1" false = Except.ok l ∧ l.length ≤ 1 ∧
      probeByKind demoState "close" "Y:1" true = probeByKind demoState "close" "Y:1" false ∧
      (∀ x ∈ l, ∃ e es, viewMapped demoState "Y:1" = e :: es ∧ x = fmtName e)) ∧
    get_element_by_close_mapping demoState "Y:1" false = Except.ok ["biolink:Gene"] ∧
    get_element_by_exact_mapping demoState "Y:1" false = Except.ok [] :=
  ⟨(c9_per_kind_singleton demoState "Y:1" false "close" (fun _ => by decide)).2,
   by decide, by decide⟩

/-- C2: in first-available mode, `_get_element_by_mapping` probes the buckets
in the fixed order general (the view's pooled list) → exact → close →
related → narrow → broad and returns the first probe with a non-empty
(deduplicated) result, never merging two probes; in union mode the candidate
set `get_all_elements_by_mapping` is the union (concatenation) of all
per-kind buckets. -/
theorem c2_bucket_priority :
    ∀ (st : SchemaState) (identifier : String),
      (viewMapped st identifier ≠ [] → (st.mappingIndex identifier).isSome = true) →
      (∃ l2 l3 l4 l5 l6,
        get_element_by_exact_mapping st identifier false = Except.ok l2 ∧
        get_element_by_close_mapping st identifier false = Except.ok l3 ∧
        get_element_by_related_mapping st identifier false = Except.ok l4 ∧
        get_element_by_narrow_mapping st identifier false = Except.ok l5 ∧
        get_element_by_broad_mapping st identifier false = Except.ok l6 ∧
        _get_element_by_mapping st identifier = Except.ok (
          let m1 := dedupFirst (viewMapped st identifier)
          if m1.isEmpty then
            let m2 := dedupFirst l2
            if m2.isEmpty then
              let m3 := dedupFirst l3
              if m3.isEmpty then
                let m4 := dedupFirst l4
                if m4.isEmpty then
                  let m5 := dedupFirst l5
                  if m5.isEmpty then dedupFirst l6 else m5
                else m4
              else m3
            else m2
          else m1)) ∧
      get_all_elements_by_mapping st identifier false =
        st.bucketExact identifier ++ st.bucketClose identifier
          ++ st.bucketRelated identifier ++ st.bucketNarrow identifier
          ++ st.bucketBroad identifier := by
  intro st identifier h
  constructor
  · cases hv : viewMapped st identifier with
    | nil =>
      refine ⟨[], [], [], [], [], ?_, ?_, ?_, ?_, ?_, ?_⟩ <;>
        simp [_get_element_by_mapping, get_element_by_exact_mapping,
          get_element_by_close_mapping, get_element_by_related_mapping,
          get_element_by_narrow_mapping, get_element_by_broad_mapping,
          probeByKind, hv, dedupFirst, dedupAux]
    | cons e es =>
      have hs : (st.mappingIndex identifier).isSome = true := h (by simp [hv])
      obtain ⟨ki, hki⟩ := Option.isSome_iff_exists.mp hs
      have hne : (dedupFirst (viewMapped st identifier)).isEmpty = false := by
        rw [hv, dedupFirst_cons]
        rfl
      refine ⟨if ki.1 = "exact" ∧ ki.2 = e then [fmtName e] else [],
        if ki.1 = "close" ∧ ki.2 = e then [fmtName e] else [],
        if ki.1 = "related" ∧ ki.2 = e then [fmtName e] else [],
        if ki.1 = "narrow" ∧ ki.2 = e then [fmtName e] else [],
        if ki.1 = "broad" ∧ ki.2 = e then [fmtName e] else [],
        ?_, ?_, ?_, ?_, ?_, ?_⟩
      · simp [get_element_by_exact_mapping, probeByKind, hv, hki]
      · simp [get_element_by_close_mapping, probeByKind, hv, hki]
      · simp [get_element_by_related_mapping, probeByKind, hv, hki]
      · simp [get_element_by_narrow_mapping, probeByKind, hv, hki]
      · simp [get_element_by_broad_mapping, probeByKind, hv, hki]
      · simp only [_get_element_by_mapping, hne, Bool.false_eq_true, reduceIte]
        rw [hv] at hne
        simp only [hne, Bool.false_eq_true, reduceIte, hv]
  · simp [get_all_elements_by_mapping, formatAll, viewMapped]

/-- C2 witness: for `"Y:1"` in `demoState` the general (pooled) bucket is
non-empty, so first-available mode returns it without consulting the later
probes, and union mode concatenates the per-kind buckets. -/
theorem c2_witness :
    (∃ l2 l3 l4 l5 l6,
      get_element_by_exact_mapping demoState "Y:1" false = Except.ok l2 ∧
      get_element_by_close_mapping demoState "Y:1" false = Except.ok l3 ∧
      get_element_by_related_mapping demoState "Y:1" false = Except.ok l4 ∧
      get_element_by_narrow_mapping demoState "Y:1" false = Except.ok l5 ∧
      get_element_by_broad_mapping demoState "Y:1" false = Except.ok l6 ∧
      _get_element_by_mapping demoState "Y:1" = Except.ok (
        let m1 := dedupFirst (viewMapped demoState "Y:1")
        if m1.isEmpty then
          let m2 := dedupFirst l2
          if m2.isEmpty then
            let m3 := dedupFirst l3
            if m3.isEmpty then
              let m4 := dedupFirst l4
              if m4.isEmpty then
                let m5 := dedupFirst l5
                if m5.isEmpty then dedupFirst l6 else m5
              else m4
            else m3
          else m2
        else m1)) ∧
    get_all_elements_by_mapping demoState "Y:1" false =
      demoState.bucketExact "Y:1" ++ demoState.bucketClose "Y:1"
        ++ demoState.bucketRelated "Y:1" ++ demoState.bucketNarrow "Y:1"
        ++ demoState.bucketBroad "Y:1" :=
  c2_bucket_priority demoState "Y:1" (fun _ => by decide)

/-- A state with only its predicate-map payload replaced. -/
def setPmap (s : SchemaState) (p : List (String × String)) : SchemaState :=
  { s with pmap := p }

theorem lookupElement_setPmap (s : SchemaState) (p : List (String × String))
    (n : String) : lookupElement (setPmap s p) n = lookupElement s n := rfl

theorem elements_setPmap (s : SchemaState) (p : List (String × String)) :
    (setPmap s p).elements = s.elements := rfl

theorem getElementFuel_setPmap (s : SchemaState) (p : List (String × String)) :
    ∀ (f : Nat) (n : String), getElementFuel (setPmap s p) f n = getElementFuel s f n := by
  intro f
  induction f with
  | zero => intro n; rfl
  | succ f ih => intro n; simp only [getElementFuel, ih]; rfl

theorem getElement_setPmap (s : SchemaState) (p : List (String × String))
    (n : String) : getElement (setPmap s p) n = getElement s n :=
  getElementFuel_setPmap s p _ n

theorem isaChain_setPmap (s : SchemaState) (p : List (String × String)) :
    ∀ (f : Nat) (n : String), isaChain (setPmap s p) f n = isaChain s f n := by
  intro f
  induction f with
  | zero => intro n; rfl
  | succ f ih => intro n; simp only [isaChain, ih, lookupElement_setPmap]

theorem mixinAncestors_setPmap (s : SchemaState) (p : List (String × String))
    (f : Nat) (chain : List String) :
    mixinAncestors (setPmap s p) f chain = mixinAncestors s f chain := by
  simp only [mixinAncestors, lookupElement_setPmap, isaChain_setPmap]

theorem ancestorsAll_setPmap (s : SchemaState) (p : List (String × String))
    (mixin : Bool) (n : String) :
    ancestorsAll (setPmap s p) mixin n = ancestorsAll s mixin n := by
  simp only [ancestorsAll, elements_setPmap, isaChain_setPmap, mixinAncestors_setPmap]

theorem filter_secondary_setPmap (s : SchemaState) (p : List (String × String))
    (lst : List String) :
    _filter_secondary (setPmap s p) lst = _filter_secondary s lst := rfl

theorem formatAll_setPmap (s : SchemaState) (p : List (String × String))
    (fm : Bool) (lst : List String) :
    formatAll (setPmap s p) fm lst = formatAll s fm lst := rfl

theorem get_ancestors_setPmap (s : SchemaState) (p : List (String × String))
    (n : String) (r fm mx : Bool) :
    get_ancestors (setPmap s p) n r fm mx = get_ancestors s n r fm mx := by
  simp only [get_ancestors, getElement_setPmap, viewAncestors, ancestorsAll_setPmap,
    filter_secondary_setPmap, formatAll_setPmap]

theorem chainOf_setPmap (s : SchemaState) (p : List (String × String))
    (mx : Bool) (mappings : List String) (m : String) :
    chainOf (setPmap s p) mx mappings m = chainOf s mx mappings m := by
  simp only [chainOf, get_ancestors_setPmap]

theorem probeByKind_setPmap (s : SchemaState) (p : List (String × String))
    (kind identifier : String) (fm : Bool) :
    probeByKind (setPmap s p) kind identifier fm = probeByKind s kind identifier fm := rfl

theorem getEBM_setPmap (s : SchemaState) (p : List (String × String))
    (identifier : String) :
    _get_element_by_mapping (setPmap s p) identifier =
      _get_element_by_mapping s identifier := rfl

theorem get_all_elements_by_mapping_setPmap (s : SchemaState)
    (p : List (String × String)) (identifier : String) (fm : Bool) :
    get_all_elements_by_mapping (setPmap s p) identifier fm =
      get_all_elements_by_mapping s identifier fm := rfl

/-- `get_element_by_mapping` never reads the predicate-map payload. -/
theorem get_element_by_mapping_setPmap (s : SchemaState)
    (p : List (String × String)) (identifier : String) (ms fm mx : Bool) :
    get_element_by_mapping (setPmap s p) identifier ms fm mx =
      get_element_by_mapping s identifier ms fm mx := by
  simp only [get_element_by_mapping, getEBM_setPmap,
    get_all_elements_by_mapping_setPmap, chainOf_setPmap]
  rfl

/-- C8: for a fixed loaded schema, `get_element_by_mapping` is a deterministic
pure function of the immutable schema state: any two states that agree on the
element table, the five mapping buckets and the mapping index give identical
results for the same identifier and flags — in particular the result does not
depend on the predicate-map payload, on any hidden mutable state, or on which
of two equal states is queried. -/
theorem c8_mapping_determinism :
    ∀ (s1 s2 : SchemaState) (identifier : String) (ms fm mx : Bool),
      s1.elements = s2.elements →
      s1.bucketExact = s2.bucketExact →
      s1.bucketClose = s2.bucketClose →
      s1.bucketRelated = s2.bucketRelated →
      s1.bucketNarrow = s2.bucketNarrow →
      s1.bucketBroad = s2.bucketBroad →
      s1.mappingIndex = s2.mappingIndex →
      get_element_by_mapping s1 identifier ms fm mx =
        get_element_by_mapping s2 identifier ms fm mx := by
  intro s1 s2 identifier ms fm mx h1 h2 h3 h4 h5 h6 h7
  have hs : s1 = setPmap s2 s1.pmap := by
    cases s1
    cases s2
    simp only at h1 h2 h3 h4 h5 h6 h7 ⊢
    subst h1
    subst h2
    subst h3
    subst h4
    subst h5
    subst h6
    subst h7
    rfl
  rw [hs, get_element_by_mapping_setPmap]

/-- C8 witness: `demoState` and `demoStateP` differ only in their
predicate-map payload; the identifier `"X:1"` maps to two elements and both
states return the same (common-ancestor) result. -/
theorem c8_witness :
    get_element_by_mapping demoState "X:1" false false true =
      get_element_by_mapping demoStateP "X:1" false false true ∧
    get_element_by_mapping demoState "X:1" false false true =
      Except.ok (some "named thing") :=
  ⟨c8_mapping_determinism demoState demoStateP "X:1" false false true
      rfl rfl rfl rfl rfl rfl rfl,
   by decide⟩

theorem boolEqOfIff {x y : Bool} (h : x = true ↔ y = true) : x = y := by
  cases x <;> cases y <;> simp_all

/-- C1 counterexample: the identifier `"T:1"` in `demoState` has the
non-empty candidate set `["t"]`, whose single restricted ancestor chain is
empty (the candidate resolves to a type, so `get_ancestors` gives `[]`); the
common-ancestor intersection is therefore empty, yet `get_element_by_mapping`
raises `IndexError` (`set(without_empty_lists[0])` on an empty list) instead
of returning `none`. -/
theorem c1_counterexample :
    get_all_elements_by_mapping demoState "T:1" false = ["t"] ∧
    chainOf demoState true ["t"] "t" = [] ∧
    get_element_by_mapping demoState "T:1" false false true =
      Except.error "IndexError" := by
  refine ⟨by decide, by decide, by decide⟩

/-- C1 (amended): with a non-empty candidate set, `get_element_by_mapping`
discards the empty restricted ancestor chains before intersecting; when every
chain is empty it raises `IndexError` rather than returning `none`; otherwise
it intersects the surviving chains and returns the first member of the first
surviving chain lying in all surviving chains (`none` when there is no such
member, which is the empty-intersection case).  In particular, an identifier
mapping exactly to a general element `G` and a descendant `S` of `G` yields
`G`, not `S`, whichever order the two candidates enumerate in. -/
theorem c1_amended :
    (∀ (st : SchemaState) (identifier : String) (ms fm mx : Bool)
      (mappings : List String),
      (if ms then _get_element_by_mapping st identifier
       else Except.ok (get_all_elements_by_mapping st identifier false)) =
        Except.ok mappings →
      mappings ≠ [] →
      (mappings.map (fun m => chainOf st mx mappings m)).filter
        (fun c => ¬ c.isEmpty) = [] →
      get_element_by_mapping st identifier ms fm mx = Except.error "IndexError") ∧
    (∀ (st : SchemaState) (identifier : String) (ms mx : Bool)
      (mappings c0 : List String) (cr : List (List String)),
      (if ms then _get_element_by_mapping st identifier
       else Except.ok (get_all_elements_by_mapping st identifier false)) =
        Except.ok mappings →
      mappings ≠ [] →
      (mappings.map (fun m => chainOf st mx mappings m)).filter
        (fun c => ¬ c.isEmpty) = c0 :: cr →
      get_element_by_mapping st identifier ms false mx =
        Except.ok (c0.find? (fun a => (c0 :: cr).all (fun ch => ch.contains a)))) ∧
    (∀ (st : SchemaState) (identifier : String) (ms mx : Bool) (G S : String)
      (mappings : List String),
      (if ms then _get_element_by_mapping st identifier
       else Except.ok (get_all_elements_by_mapping st identifier false)) =
        Except.ok mappings →
      (mappings = [G, S] ∨ mappings = [S, G]) →
      chainOf st mx mappings G = [G] →
      chainOf st mx mappings S = [G, S] →
      get_element_by_mapping st identifier ms false mx = Except.ok (some G)) := by
  refine ⟨?_, ?_, ?_⟩
  · intro st identifier ms fm mx mappings h0 hne hchains
    have hie : mappings.isEmpty = false := by
      cases mappings with
      | nil => exact absurd rfl hne
      | cons y ys => rfl
    simp only [get_element_by_mapping, h0, hie, Bool.false_eq_true, reduceIte, hchains]
  · intro st identifier ms mx mappings c0 cr h0 hne hchains
    have hie : mappings.isEmpty = false := by
      cases mappings with
      | nil => exact absurd rfl hne
      | cons y ys => rfl
    simp only [get_element_by_mapping, h0, hie, Bool.false_eq_true, reduceIte, hchains]
    have hpq : ∀ a ∈ c0,
        ((cr.foldl pyIntersect c0).contains a) =
          ((c0 :: cr).all (fun ch => ch.contains a)) := by
      intro a ha
      refine boolEqOfIff ?_
      rw [List.elem_iff]
      rw [mem_foldl_pyIntersect]
      rw [List.all_eq_true]
      constructor
      · rintro ⟨h1, h2⟩ ch hch
        rcases List.mem_cons.mp hch with hch | hch
        · exact List.elem_iff.mpr (hch ▸ h1)
        · exact List.elem_iff.mpr (h2 ch hch)
      · intro h1
        exact ⟨ha, fun ch hch => List.elem_iff.mp (h1 ch (List.mem_cons_of_mem _ hch))⟩
    rw [find?_congr hpq]
    cases hf : c0.find? (fun a => (c0 :: cr).all (fun ch => ch.contains a)) <;> simp
  · intro st identifier ms mx G S mappings h0 hm hG hS
    rcases hm with hm | hm <;> subst hm
    · simp only [get_element_by_mapping, h0, List.isEmpty_cons, Bool.false_eq_true,
        reduceIte, List.map_cons, List.map_nil, hG, hS]
      have hGmem : ([G, S].contains G) = true := by
        simp [List.elem_iff]
      simp [pyIntersect, List.find?, hGmem, List.elem_iff]
    · simp only [get_element_by_mapping, h0, List.isEmpty_cons, Bool.false_eq_true,
        reduceIte, List.map_cons, List.map_nil, hG, hS]
      have hGmem : ([G].contains G) = true := by
        simp [List.elem_iff]
      simp [pyIntersect, List.find?, hGmem, List.elem_iff]

/-- C1 witness: `"X:1"` in `demoState` maps exactly to the class
`"named thing"` and its descendant `"gene"`; the call returns the general
`"named thing"`, not `"gene"`. -/
theorem c1_witness :
    get_element_by_mapping demoState "X:1" false false true =
      Except.ok (some "named thing") :=
  c1_amended.2.2 demoState "X:1" false true "named thing" "gene"
    ["named thing", "gene"] (by decide) (Or.inl rfl) (by decide) (by decide)

end Bmt
